import Mathlib

/-!
# Verification of the Onion-V3-Generator address search engine

Shallow embedding of `onion_generator/__main__.py`: byte strings are
`List Nat` (each element a byte value), the external hash primitives
SHA-512 and SHA3-256 are parameters (the program only consumes them),
and the worker generate-and-test loop is an explicit step function on a
worker state.  Python's `base64.b32encode` / `b64encode` / `b64decode`
standard-library routines are embedded concretely (RFC 4648).
-/

namespace OnionGen

/-! ## Byte strings -/

/-- A list of naturals is a byte string when every entry fits in a byte. -/
def ValidBytes (l : List Nat) : Prop := ∀ b ∈ l, b < 256

instance : DecidablePred ValidBytes := fun l =>
  inferInstanceAs (Decidable (∀ b ∈ l, b < 256))

/-! ## Base32 (RFC 4648, as implemented by Python `base64.b32encode`) -/

/-- The standard base32 alphabet. -/
def b32alph : List Char := "ABCDEFGHIJKLMNOPQRSTUVWXYZ234567".data

/-- Character for one 5-bit group (the index is masked to 5 bits). -/
def b32chr (i : Nat) : Char := b32alph.getD (i % 32) 'A'

/-- Encode one 5-byte group as 8 characters of 5 bits each. -/
def quintet (a b c d e : Nat) : List Char :=
  let n := a * 2 ^ 32 + b * 2 ^ 24 + c * 2 ^ 16 + d * 2 ^ 8 + e
  [b32chr (n / 2 ^ 35), b32chr (n / 2 ^ 30), b32chr (n / 2 ^ 25),
   b32chr (n / 2 ^ 20), b32chr (n / 2 ^ 15), b32chr (n / 2 ^ 10),
   b32chr (n / 2 ^ 5), b32chr n]

/-- Number of data characters kept for a final group of `r` bytes. -/
def b32keep (r : Nat) : Nat :=
  if r = 1 then 2 else if r = 2 then 4 else if r = 3 then 5 else 7

/-- Base32-encode a byte string, producing `=`-padded output exactly as
Python's `base64.b32encode` does: full 5-byte groups become 8 characters,
a final partial group is zero-padded, encoded, and its unused characters
replaced by `=`. -/
def b32encodeCore : List Nat → List Char
  | a :: b :: c :: d :: e :: rest => quintet a b c d e ++ b32encodeCore rest
  | [] => []
  | rem =>
      (quintet (rem.getD 0 0) (rem.getD 1 0) (rem.getD 2 0) (rem.getD 3 0)
        (rem.getD 4 0)).take (b32keep rem.length) ++
      List.replicate (8 - b32keep rem.length) '='

/-- Python `str.strip`: remove characters satisfying `p` from both ends. -/
def pyStripP (p : Char → Bool) (s : List Char) : List Char :=
  ((s.dropWhile p).reverse.dropWhile p).reverse

/-- Python `str.strip(c)`: remove `c` from both ends. -/
def pyStrip (c : Char) (s : List Char) : List Char :=
  pyStripP (fun x => x = c) s

/-- Python `str.strip()` with no argument: remove whitespace from both
ends. -/
def pyStripWS (s : List Char) : List Char :=
  pyStripP Char.isWhitespace s

/-- Python `str.lower()` (the strings here are ASCII). -/
def pyLower (s : List Char) : List Char :=
  s.map Char.toLower

/-- Remove trailing occurrences of `c` only (the spec's "strip padding"). -/
def stripTrailing (c : Char) (s : List Char) : List Char :=
  (s.reverse.dropWhile (fun x => x = c)).reverse

/-- `OnionGenerator.base32_encode`: base32-encode and strip `=` padding
(`.strip("=")` in the source strips both ends). -/
def base32_encode (data : List Nat) : List Char :=
  pyStrip '=' (b32encodeCore data)

/-! ## Address codec -/

/-- The byte string `b".onion checksum"`. -/
def onionChecksumPrefix : List Nat := ".onion checksum".data.map Char.toNat

/-- `OnionGenerator.encode_public_key`: checksum is the first two bytes of
SHA3-256 over `b".onion checksum" ++ public_key ++ b"\x03"`; the hostname
is the base32 encoding of `public_key ++ checksum ++ b"\x03"`, stripped of
padding, lower-cased, with `".onion"` appended. -/
def encode_public_key (sha3_256 : List Nat → List Nat)
    (public_key : List Nat) : String :=
  let checksum := (sha3_256 (onionChecksumPrefix ++ public_key ++ [3])).take 2
  let onion_address := public_key ++ checksum ++ [3]
  String.mk ((base32_encode onion_address).map Char.toLower ++ ".onion".data)

/-- Reference computation following the spec's words for `encodeHostname`:
checksum, body, base32 with trailing `=` padding stripped, lower-cased,
`".onion"` suffix. -/
def encodeHostnameSpec (sha3_256 : List Nat → List Nat)
    (publicKeyRaw : List Nat) : String :=
  let checksum := (sha3_256 (onionChecksumPrefix ++ publicKeyRaw ++ [3])).take 2
  let body := publicKeyRaw ++ checksum ++ [3]
  String.mk ((stripTrailing '=' (b32encodeCore body)).map Char.toLower ++
    ".onion".data)

/-- `OnionGenerator.expand_secret_key`: SHA-512 the raw secret key and clamp
byte 0 with `&= 248` and byte 31 with `&= 127` then `|= 64`. -/
def expand_secret_key (sha512 : List Nat → List Nat)
    (secret_key : List Nat) : List Nat :=
  let hash_bytes := sha512 secret_key
  let h1 := hash_bytes.set 0 (hash_bytes.getD 0 0 &&& 248)
  h1.set 31 ((h1.getD 31 0 &&& 127) ||| 64)

/-- The spec's contract for the codec: inputs that are not exactly 32 bytes
fail with `InvalidKeyLength`.  Modelled as an `Option`-valued checked
variant to compare against the (unchecked, total) source function. -/
def expandSecretKeyChecked (sha512 : List Nat → List Nat)
    (secret_key : List Nat) : Option (List Nat) :=
  if secret_key.length = 32 then some (expand_secret_key sha512 secret_key)
  else none

/-- Spec contract for `encodeHostname`, same checked shape. -/
def encodeHostnameChecked (sha3_256 : List Nat → List Nat)
    (public_key : List Nat) : Option String :=
  if public_key.length = 32 then some (encode_public_key sha3_256 public_key)
  else none

/-! ## Base64 (RFC 4648, as implemented by Python `base64.b64encode` /
`b64decode`) -/

/-- The standard base64 alphabet. -/
def b64alph : List Char :=
  "ABCDEFGHIJKLMNOPQRSTUVWXYZabcdefghijklmnopqrstuvwxyz0123456789+/".data

/-- Character for one 6-bit group (the index is masked to 6 bits). -/
def b64chr (i : Nat) : Char := b64alph.getD (i % 64) 'A'

/-- 6-bit value of a base64 alphabet character (decode table). -/
def b64val (c : Char) : Nat :=
  if 'A' ≤ c ∧ c ≤ 'Z' then c.toNat - 65
  else if 'a' ≤ c ∧ c ≤ 'z' then c.toNat - 97 + 26
  else if '0' ≤ c ∧ c ≤ '9' then c.toNat - 48 + 52
  else if c = '+' then 62
  else if c = '/' then 63
  else 0

/-- Base64-encode a byte string with `=` padding, exactly as Python's
`base64.b64encode`: each full 3-byte group becomes 4 characters, a final
group of 2 bytes becomes 3 characters and one `=`, a final single byte
becomes 2 characters and two `=`. -/
def b64encodeCore : List Nat → List Char
  | a :: b :: c :: rest =>
      [b64chr (a / 4), b64chr (a % 4 * 16 + b / 16),
       b64chr (b % 16 * 4 + c / 64), b64chr (c % 64)] ++ b64encodeCore rest
  | [a, b] =>
      [b64chr (a / 4), b64chr (a % 4 * 16 + b / 16), b64chr (b % 16 * 4), '=']
  | [a] => [b64chr (a / 4), b64chr (a % 4 * 16), '=', '=']
  | [] => []

/-- Base64-decode (behaviour of Python `base64.b64decode` on well-formed
input): consume 4 characters at a time; `=` padding may appear only in the
final group and truncates it to 1 or 2 bytes. -/
def b64decodeCore : List Char → List Nat
  | c1 :: c2 :: c3 :: c4 :: rest =>
      if rest = [] ∧ c4 = '=' then
        if c3 = '=' then [b64val c1 * 4 + b64val c2 / 16]
        else [b64val c1 * 4 + b64val c2 / 16, b64val c2 % 16 * 16 + b64val c3 / 4]
      else
        [b64val c1 * 4 + b64val c2 / 16, b64val c2 % 16 * 16 + b64val c3 / 4,
         b64val c3 % 4 * 64 + b64val c4] ++ b64decodeCore rest
  | _ => []

/-! ## Key blobs and candidate generation -/

/-- The byte string `b"== ed25519v1-public: type0 ==\x00\x00\x00"`. -/
def public_header : List Nat :=
  "== ed25519v1-public: type0 ==".data.map Char.toNat ++ [0, 0, 0]

/-- The byte string `b"== ed25519v1-secret: type0 ==\x00\x00\x00"`. -/
def secret_header : List Nat :=
  "== ed25519v1-secret: type0 ==".data.map Char.toNat ++ [0, 0, 0]

/-- The dictionary returned by `OnionGenerator.generate_address`
(`"private"` is a reserved word in Lean, hence the field name
`privateBlob`). -/
structure SearchResult where
  hostname : String
  publicBlob : String
  privateBlob : String
deriving DecidableEq

/-- `OnionGenerator.generate_address`, parameterized by the freshly
generated raw key pair (supplied by the external Ed25519 library) and the
hash primitives: expand the secret key, encode the hostname, and base64 the
two header-prefixed blobs. -/
def generate_address (sha512 sha3_256 : List Nat → List Nat)
    (private_bytes public_bytes : List Nat) : SearchResult :=
  let expanded_secret_key := expand_secret_key sha512 private_bytes
  let onion_address := encode_public_key sha3_256 public_bytes
  { hostname := onion_address
    publicBlob := String.mk (b64encodeCore (public_header ++ public_bytes))
    privateBlob := String.mk (b64encodeCore (secret_header ++ expanded_secret_key)) }

/-! ## Prefix matching -/

/-- The prefix normalization in `main`:
`[prefix.strip().lower() for prefix in args.prefixes]`. -/
def normalize_prefixes (ps : List String) : List String :=
  ps.map (fun p => String.mk (pyLower (pyStripWS p.data)))

/-- The match test of the worker loop: Python's
`for prefix in prefixes: if addr["hostname"].startswith(prefix): ... break`
examines the prefixes in order and stops at the first one the hostname
starts with. -/
def hostname_matches (hostname : String) (prefixes : List String) : Bool :=
  prefixes.any (fun p => p.data.isPrefixOf hostname.data)

/-! ## Worker loop and statistics -/

/-- A `('update', gen_count, found_count)` message on the stats queue. -/
structure StatMsg where
  tag : String
  gen_count : Nat
  found_count : Nat
deriving DecidableEq

/-- State of one worker: the local unreported counter `local_generated`,
the ordered list of stats messages it has emitted, the number of results it
has put on the result queue, and (ghost) the total number of candidates it
has generated. -/
structure WorkerState where
  local_generated : Nat
  emitted : List StatMsg
  results : Nat
  total_generated : Nat
deriving DecidableEq

/-- The worker's state at the top of `worker_process`'s loop. -/
def initWorker : WorkerState :=
  { local_generated := 0, emitted := [], results := 0, total_generated := 0 }

/-- One iteration of the `while True` loop in `worker_process`, given the
hostname of the candidate generated this iteration.  On a match the worker
emits `('update', local, 1)`, puts the result, and resets the counter;
afterwards the periodic check `local_generated % 1000 == 0` runs (and, the
counter having been reset to 0, emits an extra `('update', 0, 0)`).  With
no match, the periodic check emits `('update', local, 0)` and resets the
counter exactly when the incremented counter is a multiple of 1000. -/
def worker_step (prefixes : List String) (s : WorkerState)
    (hostname : String) : WorkerState :=
  let gen := { s with local_generated := s.local_generated + 1
                      total_generated := s.total_generated + 1 }
  let afterMatch :=
    if hostname_matches hostname prefixes then
      { gen with
          emitted := gen.emitted ++ [⟨"update", gen.local_generated, 1⟩]
          results := gen.results + 1
          local_generated := 0 }
    else gen
  if afterMatch.local_generated % 1000 = 0 then
    { afterMatch with
        emitted := afterMatch.emitted ++
          [⟨"update", afterMatch.local_generated, 0⟩]
        local_generated := 0 }
  else afterMatch

/-- Run the worker loop over a list of candidate hostnames. -/
def worker_run (prefixes : List String) (hostnames : List String)
    (s : WorkerState) : WorkerState :=
  hostnames.foldl (worker_step prefixes) s

/-- The shutdown flush (`signal_handler` and the
`KeyboardInterrupt`/`SystemExit` handler): if the local counter is
positive, emit it as `('update', local_generated, 0)`. -/
def worker_flush (s : WorkerState) : WorkerState :=
  if 0 < s.local_generated then
    { s with emitted := s.emitted ++ [⟨"update", s.local_generated, 0⟩]
             local_generated := 0 }
  else s

/-- Processing of one stats message by `stats_monitor` / `periodic_update`:
`generated += gen_count; found += found_count` when the tag is
`'update'`. -/
def stats_apply (c : Nat × Nat) (m : StatMsg) : Nat × Nat :=
  if m.tag = "update" then (c.1 + m.gen_count, c.2 + m.found_count) else c

/-- The aggregator's `(generated, found)` counters after consuming a list
of messages. -/
def stats_total (msgs : List StatMsg) : Nat × Nat :=
  msgs.foldl stats_apply (0, 0)

/-- Sum of the generated deltas of the `'update'` messages in a list. -/
def upd_gen (msgs : List StatMsg) : Nat :=
  (msgs.map (fun m => if m.tag = "update" then m.gen_count else 0)).sum

/-- Sum of the found deltas of the `'update'` messages in a list. -/
def upd_found (msgs : List StatMsg) : Nat :=
  (msgs.map (fun m => if m.tag = "update" then m.found_count else 0)).sum

/-- The ledger invariant of one worker: the unreported local count plus the
generated deltas already emitted equals the total number of candidates
generated. -/
def worker_inv (s : WorkerState) : Prop :=
  s.local_generated + upd_gen s.emitted = s.total_generated

/-- Well-formedness of a stats message as workers emit them: tagged
`'update'` with a found delta of 0 or 1. -/
def msg_ok (m : StatMsg) : Prop :=
  m.tag = "update" ∧ (m.found_count = 0 ∨ m.found_count = 1)

/-- The lower-cased base32 alphabet. -/
def lowerB32alph : List Char := "abcdefghijklmnopqrstuvwxyz234567".data

/-! ## Theorems -/

/-- `getD` after `set` at the same (in-bounds) index. -/
theorem getD_set_self (l : List Nat) (i : Nat) (a d : Nat)
    (h : i < l.length) : (l.set i a).getD i d = a := by
  simp [List.getD_eq_getElem?_getD, List.getElem?_set_self',
    List.getElem?_eq_getElem, h]

/-- `getD` after `set` at a different index. -/
theorem getD_set_ne (l : List Nat) (i j : Nat) (a d : Nat)
    (h : i ≠ j) : (l.set i a).getD j d = l.getD j d := by
  simp [List.getD_eq_getElem?_getD, List.getElem?_set_ne h]

/-- Clamping byte 0 clears its low three bits. -/
theorem and248_low_bits (x : Nat) : x &&& 248 &&& 7 = 0 := by
  rw [Nat.and_assoc, show (248 &&& 7 : Nat) = 0 from rfl, Nat.and_zero]

/-- The clamped byte 31 stays below 128. -/
theorem clamp31_lt (x : Nat) : (x &&& 127) ||| 64 < 128 := by
  have h1 : x &&& 127 < 2 ^ 7 := lt_of_le_of_lt Nat.and_le_right (by norm_num)
  exact Nat.or_lt_two_pow h1 (by norm_num)

/-- Clamping byte 31 clears its high bit. -/
theorem clamp31_high_bit (x : Nat) : ((x &&& 127) ||| 64) &&& 128 = 0 := by
  rw [show (128 : Nat) = 2 ^ 7 from rfl, Nat.and_two_pow,
    Nat.testBit_lt_two_pow (clamp31_lt x)]
  simp

/-- Clamping byte 31 sets bit 6. -/
theorem clamp31_bit6 (x : Nat) : ((x &&& 127) ||| 64) &&& 64 = 64 := by
  rw [show (64 : Nat) = 2 ^ 6 from rfl, Nat.and_two_pow, Nat.testBit_or]
  have h64 : Nat.testBit 64 6 = true := by decide
  simp [h64]

/-- The expanded key has the digest's length. -/
theorem expand_secret_key_length (sha512 : List Nat → List Nat)
    (s : List Nat) :
    (expand_secret_key sha512 s).length = (sha512 s).length := by
  simp [expand_secret_key]

/-- C2: for every 32-byte secret key, `expand_secret_key` is the SHA-512
digest of exactly those bytes with the three clamping operations applied:
the output is 64 bytes long (given that SHA-512 digests are), byte 0 is the
digest's byte 0 with `&= 248` (so its low 3 bits are clear), byte 31 is the
digest's byte 31 with `&= 127; |= 64` (so its high bit is clear and bit 6
set), every other byte is the digest's byte unchanged, and the function is
deterministic. -/
theorem C2_expand_secret_key (sha512 : List Nat → List Nat) (s : List Nat)
    (_h32 : s.length = 32) (hlen : ∀ x, (sha512 x).length = 64) :
    (expand_secret_key sha512 s).length = 64 ∧
    (expand_secret_key sha512 s).getD 0 0 = (sha512 s).getD 0 0 &&& 248 ∧
    (expand_secret_key sha512 s).getD 31 0
      = ((sha512 s).getD 31 0 &&& 127) ||| 64 ∧
    (∀ i, i ≠ 0 → i ≠ 31 →
      (expand_secret_key sha512 s).getD i 0 = (sha512 s).getD i 0) ∧
    (expand_secret_key sha512 s).getD 0 0 &&& 7 = 0 ∧
    (expand_secret_key sha512 s).getD 31 0 &&& 128 = 0 ∧
    (expand_secret_key sha512 s).getD 31 0 &&& 64 = 64 ∧
    expand_secret_key sha512 s = expand_secret_key sha512 s := by
  have hl : (sha512 s).length = 64 := hlen s
  have hl1 : ((sha512 s).set 0 ((sha512 s).getD 0 0 &&& 248)).length = 64 := by
    simp [hl]
  have hg0 : (expand_secret_key sha512 s).getD 0 0
      = (sha512 s).getD 0 0 &&& 248 := by
    unfold expand_secret_key
    rw [getD_set_ne _ _ _ _ _ (by norm_num), getD_set_self _ _ _ _ (by omega)]
  have hg31 : (expand_secret_key sha512 s).getD 31 0
      = ((sha512 s).getD 31 0 &&& 127) ||| 64 := by
    unfold expand_secret_key
    rw [getD_set_self _ _ _ _ (by omega),
      getD_set_ne _ _ _ _ _ (by norm_num)]
  refine ⟨by rw [expand_secret_key_length, hl], hg0, hg31, ?_, ?_, ?_, ?_, rfl⟩
  · intro i h0 h31
    unfold expand_secret_key
    rw [getD_set_ne _ _ _ _ _ (fun h => h31 h.symm),
      getD_set_ne _ _ _ _ _ (fun h => h0 h.symm)]
  · rw [hg0]; exact and248_low_bits _
  · rw [hg31]; exact clamp31_high_bit _
  · rw [hg31]; exact clamp31_bit6 _

/-- Witness for C2 at the all-zero secret key with a stub digest. -/
theorem C2_expand_secret_key_witness :
    (expand_secret_key (fun _ => List.replicate 64 0)
      (List.replicate 32 0)).length = 64 :=
  (C2_expand_secret_key (fun _ => List.replicate 64 0) (List.replicate 32 0)
    (by simp) (fun _ => by simp)).1

/-- C5: for every hostname and non-empty prefix set, the match test over
the startup-normalized prefixes is true exactly when the hostname starts
with at least one prefix of the normalized set (the prefixes are examined
in set order with short-circuit, which is what `List.any` does). -/
theorem C5_hostname_matches (hostname : String) (ps : List String)
    (_hne : ps ≠ []) :
    hostname_matches hostname (normalize_prefixes ps) = true ↔
      ∃ p ∈ normalize_prefixes ps, p.data <+: hostname.data := by
  simp [hostname_matches, List.any_eq_true, List.isPrefixOf_iff_prefix]

/-- Witness for C5: prefix set `["A "]`, hostname `"abc"`. -/
theorem C5_hostname_matches_witness :
    hostname_matches "abc" (normalize_prefixes ["A "]) = true ↔
      ∃ p ∈ normalize_prefixes ["A "], p.data <+: "abc".data :=
  C5_hostname_matches "abc" ["A "] (by simp)

/-- C10: if any supplied prefix is empty after normalization (for example a
whitespace-only argument), the match test accepts every hostname, and the
very first candidate of a worker is reported as a match: one result is put
on the result queue and the emitted stats carry a found count of 1. -/
theorem C10_empty_prefix_matches_all (ps : List String) (hostname : String)
    (hempty : "" ∈ normalize_prefixes ps) :
    hostname_matches hostname (normalize_prefixes ps) = true ∧
    (worker_step (normalize_prefixes ps) initWorker hostname).results = 1 ∧
    (worker_step (normalize_prefixes ps) initWorker hostname).emitted
      = [⟨"update", 1, 1⟩, ⟨"update", 0, 0⟩] := by
  have hmatch : hostname_matches hostname (normalize_prefixes ps) = true := by
    refine List.any_eq_true.mpr ⟨"", hempty, ?_⟩
    simp [List.isPrefixOf]
  refine ⟨hmatch, ?_, ?_⟩ <;>
    simp [worker_step, initWorker, hmatch]

/-- Witness for C10: a whitespace-only prefix argument. -/
theorem C10_empty_prefix_matches_all_witness :
    hostname_matches "zzz" (normalize_prefixes [" "]) = true ∧
    (worker_step (normalize_prefixes [" "]) initWorker "zzz").results = 1 ∧
    (worker_step (normalize_prefixes [" "]) initWorker "zzz").emitted
      = [⟨"update", 1, 1⟩, ⟨"update", 0, 0⟩] :=
  C10_empty_prefix_matches_all [" "] "zzz" (by decide)

/-! ### Worker-loop bookkeeping -/

/-- `upd_gen` over an appended message list. -/
theorem upd_gen_append (l1 l2 : List StatMsg) :
    upd_gen (l1 ++ l2) = upd_gen l1 + upd_gen l2 := by
  simp [upd_gen]

/-- `upd_found` over an appended message list. -/
theorem upd_found_append (l1 l2 : List StatMsg) :
    upd_found (l1 ++ l2) = upd_found l1 + upd_found l2 := by
  simp [upd_found]

/-- The aggregator fold is addition of the `'update'` deltas. -/
theorem stats_foldl_eq (msgs : List StatMsg) : ∀ c : Nat × Nat,
    msgs.foldl stats_apply c = (c.1 + upd_gen msgs, c.2 + upd_found msgs) := by
  induction msgs with
  | nil => intro c; simp [upd_gen, upd_found]
  | cons m t ih =>
      intro c
      rw [List.foldl_cons, ih]
      by_cases h : m.tag = "update" <;>
        simp [stats_apply, h, upd_gen, upd_found, Nat.add_assoc]

/-- The aggregator's counters equal the sums of the emitted deltas. -/
theorem stats_total_eq (msgs : List StatMsg) :
    stats_total msgs = (upd_gen msgs, upd_found msgs) := by
  simp [stats_total, stats_foldl_eq]

/-- Every iteration of the worker loop generates exactly one candidate. -/
theorem worker_step_total (prefixes : List String) (s : WorkerState)
    (host : String) :
    (worker_step prefixes s host).total_generated
      = s.total_generated + 1 := by
  simp only [worker_step]
  split_ifs <;> rfl

/-- One worker iteration preserves the ledger invariant. -/
theorem worker_step_preserves_inv (prefixes : List String) (s : WorkerState)
    (host : String) (hs : worker_inv s) :
    worker_inv (worker_step prefixes s host) := by
  unfold worker_inv at hs ⊢
  simp only [worker_step]
  split_ifs <;> simp [upd_gen_append, upd_gen] at hs ⊢ <;> omega

/-- Running the loop preserves the ledger invariant. -/
theorem worker_run_preserves_inv (prefixes : List String)
    (hostnames : List String) : ∀ s : WorkerState, worker_inv s →
    worker_inv (worker_run prefixes hostnames s) := by
  induction hostnames with
  | nil => intro s hs; exact hs
  | cons h t ih =>
      intro s hs
      exact ih _ (worker_step_preserves_inv prefixes s h hs)

/-- Running the loop adds one generated candidate per hostname. -/
theorem worker_run_total (prefixes : List String) (hostnames : List String) :
    ∀ s : WorkerState, (worker_run prefixes hostnames s).total_generated
      = s.total_generated + hostnames.length := by
  induction hostnames with
  | nil => intro s; simp [worker_run]
  | cons h t ih =>
      intro s
      have := ih (worker_step prefixes s h)
      simp only [worker_run, List.foldl_cons] at this ⊢
      rw [this, worker_step_total, List.length_cons]
      omega

/-- The shutdown flush zeroes the local counter and leaves the ledger
balanced: the emitted deltas now account for the whole total. -/
theorem worker_flush_spec (s : WorkerState) (hs : worker_inv s) :
    (worker_flush s).total_generated = s.total_generated ∧
    upd_gen (worker_flush s).emitted = s.total_generated := by
  unfold worker_inv at hs
  simp only [worker_flush]
  split_ifs with hpos
  · refine ⟨rfl, ?_⟩
    simp [upd_gen_append, upd_gen] at hs ⊢
    omega
  · exact ⟨rfl, by omega⟩

/-- C6: the ledger invariant — local unreported count plus emitted deltas
equals the exact number of candidates generated — holds at every step, and
after a graceful-shutdown flush the aggregator's generated counter equals
each worker's exact total; summed over any set of workers, the aggregate
equals the exact sum of all candidates generated by all workers. -/
theorem C6_graceful_drain_exact (prefixes : List String) :
    (∀ s h, worker_inv s → worker_inv (worker_step prefixes s h)) ∧
    (∀ hostnames : List String,
      (stats_total
        (worker_flush (worker_run prefixes hostnames initWorker)).emitted).1
        = hostnames.length) ∧
    (∀ streams : List (List String),
      (stats_total ((streams.map (fun hs =>
          (worker_flush (worker_run prefixes hs initWorker)).emitted)).flatten)).1
        = (streams.map List.length).sum) := by
  have key : ∀ hostnames : List String,
      upd_gen (worker_flush (worker_run prefixes hostnames initWorker)).emitted
        = hostnames.length := by
    intro hostnames
    have hinv : worker_inv (worker_run prefixes hostnames initWorker) :=
      worker_run_preserves_inv prefixes hostnames initWorker
        (by simp [worker_inv, initWorker, upd_gen])
    have htot := worker_run_total prefixes hostnames initWorker
    have := (worker_flush_spec _ hinv).2
    rw [this, htot]
    simp [initWorker]
  refine ⟨worker_step_preserves_inv prefixes, ?_, ?_⟩
  · intro hostnames
    rw [stats_total_eq, key]
  · intro streams
    induction streams with
    | nil => simp [stats_total_eq, upd_gen]
    | cons hs t ih =>
        rw [stats_total_eq] at ih ⊢
        simp only [List.map_cons, List.flatten_cons, upd_gen_append,
          List.sum_cons, key hs]
        omega

/-- Witness for C6: a two-candidate run against prefix `"a"`. -/
theorem C6_graceful_drain_exact_witness :
    worker_inv (worker_step ["a"] initWorker "zzz") ∧
    (stats_total
      (worker_flush (worker_run ["a"] ["abc", "zzz"] initWorker)).emitted).1
      = 2 :=
  ⟨(C6_graceful_drain_exact ["a"]).1 initWorker "zzz"
    (by simp [worker_inv, initWorker, upd_gen]),
   (C6_graceful_drain_exact ["a"]).2.1 ["abc", "zzz"]⟩

/-- C7: the worker's local counter stays at most 999 across iterations:
when an iteration emits nothing the counter just grew by one; a match emits
the pending count (at most 1000) with a found count of 1 (followed by the
empty periodic report the reset triggers); with no match, reaching the
1000-threshold emits the pending count with a found count of 0; and every
message ever emitted in an iteration either was already present or carries
a generated delta of at most 1000. -/
theorem C7_batched_threshold (prefixes : List String) (s : WorkerState)
    (host : String) (hs : s.local_generated ≤ 999) :
    (worker_step prefixes s host).local_generated ≤ 999 ∧
    ((worker_step prefixes s host).emitted = s.emitted →
      (worker_step prefixes s host).local_generated
        = s.local_generated + 1) ∧
    (hostname_matches host prefixes = true →
      (worker_step prefixes s host).emitted
        = s.emitted ++
          [⟨"update", s.local_generated + 1, 1⟩, ⟨"update", 0, 0⟩]) ∧
    (hostname_matches host prefixes = false →
      (s.local_generated + 1) % 1000 = 0 →
      (worker_step prefixes s host).emitted
        = s.emitted ++ [⟨"update", s.local_generated + 1, 0⟩]) ∧
    (∀ m ∈ (worker_step prefixes s host).emitted,
      m ∈ s.emitted ∨ m.gen_count ≤ 1000) := by
  by_cases h1 : hostname_matches host prefixes = true
  · refine ⟨by simp [worker_step, h1], ?_, fun _ => by simp [worker_step, h1],
      ?_, ?_⟩
    · intro heq
      have := congrArg List.length heq
      simp [worker_step, h1] at this
    · intro hf
      rw [h1] at hf
      cases hf
    · intro m hm
      simp [worker_step, h1] at hm
      rcases hm with hm | rfl | rfl
      · exact Or.inl hm
      · right
        simp
        omega
      · right
        simp
  · by_cases h2 : (s.local_generated + 1) % 1000 = 0
    · refine ⟨by simp [worker_step, h1, h2], ?_,
        fun ht => absurd ht h1, fun _ _ => by simp [worker_step, h1, h2], ?_⟩
      · intro heq
        have := congrArg List.length heq
        simp [worker_step, h1, h2] at this
      · intro m hm
        simp [worker_step, h1, h2] at hm
        rcases hm with hm | rfl
        · exact Or.inl hm
        · right
          simp
          omega
    · refine ⟨by simp [worker_step, h1, h2]; omega,
        fun _ => by simp [worker_step, h1, h2],
        fun ht => absurd ht h1, fun _ hmod => absurd hmod h2, ?_⟩
      intro m hm
      simp [worker_step, h1, h2] at hm
      exact Or.inl hm

/-- Witness for C7 at the initial state. -/
theorem C7_batched_threshold_witness :
    (worker_step ["a"] initWorker "zzz").local_generated ≤ 999 :=
  (C7_batched_threshold ["a"] initWorker "zzz" (by simp [initWorker])).1

/-- One worker iteration only appends well-formed stats messages. -/
theorem worker_step_msgs_ok (prefixes : List String) (s : WorkerState)
    (host : String) (hok : ∀ m ∈ s.emitted, msg_ok m) :
    ∀ m ∈ (worker_step prefixes s host).emitted, msg_ok m := by
  intro m hm
  by_cases h1 : hostname_matches host prefixes = true
  · simp [worker_step, h1] at hm
    rcases hm with hm | rfl | rfl
    · exact hok m hm
    · simp [msg_ok]
    · simp [msg_ok]
  · by_cases h2 : (s.local_generated + 1) % 1000 = 0
    · simp [worker_step, h1, h2] at hm
      rcases hm with hm | rfl
      · exact hok m hm
      · simp [msg_ok]
    · simp [worker_step, h1, h2] at hm
      exact hok m hm

/-- Running the loop only appends well-formed stats messages. -/
theorem worker_run_msgs_ok (prefixes : List String)
    (hostnames : List String) : ∀ s : WorkerState,
    (∀ m ∈ s.emitted, msg_ok m) →
    ∀ m ∈ (worker_run prefixes hostnames s).emitted, msg_ok m := by
  induction hostnames with
  | nil => intro s hok; exact hok
  | cons h t ih =>
      intro s hok
      exact ih _ (worker_step_msgs_ok prefixes s h hok)

/-- The shutdown flush only appends a well-formed stats message. -/
theorem worker_flush_msgs_ok (s : WorkerState)
    (hok : ∀ m ∈ s.emitted, msg_ok m) :
    ∀ m ∈ (worker_flush s).emitted, msg_ok m := by
  simp only [worker_flush]
  split_ifs <;> intro m hm
  · rcases List.mem_append.mp hm with h | h
    · exact hok m h
    · simp at h
      rcases h with rfl
      simp [msg_ok]
  · exact hok m hm

/-- C9: every stats message a worker emits (through a full run and the
shutdown flush) is an `'update'` with a nonnegative generated delta and a
found delta of 0 or 1, and the aggregator's fold never decreases either
counter on processing any message list. -/
theorem C9_stats_monotone (prefixes hostnames : List String) (m : StatMsg)
    (hm : m ∈ (worker_flush
      (worker_run prefixes hostnames initWorker)).emitted) :
    m.tag = "update" ∧ 0 ≤ m.gen_count ∧
    (m.found_count = 0 ∨ m.found_count = 1) ∧
    (∀ (msgs : List StatMsg) (c : Nat × Nat),
      c.1 ≤ (msgs.foldl stats_apply c).1 ∧
      c.2 ≤ (msgs.foldl stats_apply c).2) := by
  have hok : msg_ok m := by
    refine worker_flush_msgs_ok _ ?_ m hm
    refine worker_run_msgs_ok prefixes hostnames initWorker ?_
    intro m hm
    simp [initWorker] at hm
  refine ⟨hok.1, Nat.zero_le _, hok.2, ?_⟩
  intro msgs c
  rw [stats_foldl_eq]
  exact ⟨Nat.le_add_right _ _, Nat.le_add_right _ _⟩

/-- Witness for C9: the flush message of a one-candidate run. -/
theorem C9_stats_monotone_witness :
    (⟨"update", 1, 0⟩ : StatMsg).tag = "update" ∧
    0 ≤ (⟨"update", 1, 0⟩ : StatMsg).gen_count ∧
    ((⟨"update", 1, 0⟩ : StatMsg).found_count = 0 ∨
      (⟨"update", 1, 0⟩ : StatMsg).found_count = 1) ∧
    (∀ (msgs : List StatMsg) (c : Nat × Nat),
      c.1 ≤ (msgs.foldl stats_apply c).1 ∧
      c.2 ≤ (msgs.foldl stats_apply c).2) :=
  C9_stats_monotone ["a"] ["zzz"] ⟨"update", 1, 0⟩ (by decide)

/-! ### Base32 structure -/

/-- Every base32 character the encoder emits is in the alphabet. -/
theorem b32chr_mem (i : Nat) : b32chr i ∈ b32alph := by
  have hlt : i % 32 < 32 := Nat.mod_lt _ (by norm_num)
  have hall : ∀ j < 32, b32alph.getD j 'A' ∈ b32alph := by decide
  exact hall _ hlt

/-- Every character of an encoded 5-byte group is in the alphabet. -/
theorem quintet_mem (a b c d e : Nat) :
    ∀ ch ∈ quintet a b c d e, ch ∈ b32alph := by
  intro ch hch
  simp only [quintet, List.mem_cons, List.not_mem_nil, or_false] at hch
  rcases hch with rfl | rfl | rfl | rfl | rfl | rfl | rfl | rfl <;>
    exact b32chr_mem _

/-- On input whose length is a multiple of 5, the base32 encoder produces
8 characters per 5-byte group, all from the alphabet (hence no `=`
padding). -/
theorem b32encodeCore_full : ∀ (n : Nat) (l : List Nat),
    l.length = 5 * n →
    (b32encodeCore l).length = 8 * n ∧
      ∀ ch ∈ b32encodeCore l, ch ∈ b32alph := by
  intro n
  induction n with
  | zero =>
      intro l hl
      have : l = [] := List.eq_nil_of_length_eq_zero (by omega)
      subst this
      simp [b32encodeCore]
  | succ k ih =>
      intro l hl
      rcases l with _ | ⟨a, _ | ⟨b, _ | ⟨c, _ | ⟨d, _ | ⟨e, rest⟩⟩⟩⟩⟩ <;>
        simp only [List.length_nil, List.length_cons] at hl <;>
        try omega
      have hrest : rest.length = 5 * k := by omega
      obtain ⟨ihlen, ihmem⟩ := ih rest hrest
      have heq : b32encodeCore (a :: b :: c :: d :: e :: rest)
          = quintet a b c d e ++ b32encodeCore rest := rfl
      rw [heq]
      constructor
      · simp only [List.length_append, ihlen, quintet]
        simp
        omega
      · intro ch hch
        rcases List.mem_append.mp hch with h | h
        · exact quintet_mem a b c d e ch h
        · exact ihmem ch h

/-- `dropWhile` is the identity when no element satisfies the predicate. -/
theorem dropWhile_eq_self_of_none (p : Char → Bool) (l : List Char)
    (h : ∀ ch ∈ l, p ch = false) : l.dropWhile p = l := by
  cases l with
  | nil => rfl
  | cons x t =>
      rw [List.dropWhile_cons, h x (by simp)]
      simp

/-- Python's two-sided `strip` is the identity when the character does not
occur. -/
theorem pyStrip_eq_self (c : Char) (l : List Char)
    (h : ∀ ch ∈ l, ch ≠ c) : pyStrip c l = l := by
  unfold pyStrip pyStripP
  have h1 : ∀ ch ∈ l, decide (ch = c) = false :=
    fun ch hch => decide_eq_false (h ch hch)
  rw [dropWhile_eq_self_of_none _ _ h1,
    dropWhile_eq_self_of_none _ _ (fun ch hch =>
      h1 ch (List.mem_reverse.mp hch)),
    List.reverse_reverse]

/-- Trailing-only strip is the identity when the character does not
occur. -/
theorem stripTrailing_eq_self (c : Char) (l : List Char)
    (h : ∀ ch ∈ l, ch ≠ c) : stripTrailing c l = l := by
  unfold stripTrailing
  have h1 : ∀ ch ∈ l, decide (ch = c) = false :=
    fun ch hch => decide_eq_false (h ch hch)
  rw [dropWhile_eq_self_of_none _ _ (fun ch hch =>
      h1 ch (List.mem_reverse.mp hch)),
    List.reverse_reverse]

/-- The checksum body of a 32-byte public key is 35 bytes long. -/
theorem body_length (sha3_256 : List Nat → List Nat) (pk : List Nat)
    (hpk : pk.length = 32) (hlen : ∀ x, (sha3_256 x).length = 32) :
    (pk ++ (sha3_256 (onionChecksumPrefix ++ pk ++ [3])).take 2
      ++ [3]).length = 5 * 7 := by
  simp [hpk, hlen]

/-- C1: for every 32-byte public key, `encode_public_key` equals the
reference computation of the spec — checksum from SHA3-256 over
`".onion checksum" ‖ key ‖ 0x03`, body `key ‖ checksum ‖ 0x03`, standard
base32 with `=` padding stripped, lower-cased, with `".onion"`
appended.  (The source strips `=` from both ends, the spec only from the
tail; a 35-byte body encodes without padding, so they agree.) -/
theorem C1_encode_public_key_spec (sha3_256 : List Nat → List Nat)
    (pk : List Nat) (hpk : pk.length = 32)
    (hlen : ∀ x, (sha3_256 x).length = 32) :
    encode_public_key sha3_256 pk = encodeHostnameSpec sha3_256 pk := by
  simp only [encode_public_key, encodeHostnameSpec, base32_encode]
  obtain ⟨_, hmem⟩ :=
    b32encodeCore_full 7 _ (body_length sha3_256 pk hpk hlen)
  have hne : ∀ ch ∈ b32encodeCore
      (pk ++ (sha3_256 (onionChecksumPrefix ++ pk ++ [3])).take 2 ++ [3]),
      ch ≠ '=' := by
    intro ch hch heq
    subst heq
    exact (by decide : ('=' : Char) ∉ b32alph) (hmem _ hch)
  rw [pyStrip_eq_self _ _ hne, stripTrailing_eq_self _ _ hne]

/-- Witness for C1 at the all-zero public key with a stub digest. -/
theorem C1_encode_public_key_spec_witness :
    encode_public_key (fun _ => List.replicate 32 0) (List.replicate 32 0)
      = encodeHostnameSpec (fun _ => List.replicate 32 0)
          (List.replicate 32 0) :=
  C1_encode_public_key_spec (fun _ => List.replicate 32 0)
    (List.replicate 32 0) (by simp) (fun _ => by simp)

/-- Lower-casing maps the base32 alphabet into the lower-case alphabet. -/
theorem toLower_mem_lowerB32alph :
    ∀ ch ∈ b32alph, Char.toLower ch ∈ lowerB32alph := by decide

/-- C4: for every 32-byte public key, the hostname is exactly 62 ASCII
characters — a 56-character body over the lower-case base32 alphabet
`a-z2-7` followed by the literal `".onion"` — and the encoding is
deterministic. -/
theorem C4_hostname_shape (sha3_256 : List Nat → List Nat) (pk : List Nat)
    (hpk : pk.length = 32) (hlen : ∀ x, (sha3_256 x).length = 32) :
    (encode_public_key sha3_256 pk).data.length = 62 ∧
    ((encode_public_key sha3_256 pk).data.take 56).length = 56 ∧
    (∀ ch ∈ (encode_public_key sha3_256 pk).data.take 56,
      ch ∈ lowerB32alph) ∧
    (encode_public_key sha3_256 pk).data.drop 56 = ".onion".data ∧
    encode_public_key sha3_256 pk = encode_public_key sha3_256 pk := by
  obtain ⟨hlen56, hmem⟩ :=
    b32encodeCore_full 7 _ (body_length sha3_256 pk hpk hlen)
  have hne : ∀ ch ∈ b32encodeCore
      (pk ++ (sha3_256 (onionChecksumPrefix ++ pk ++ [3])).take 2 ++ [3]),
      ch ≠ '=' := by
    intro ch hch heq
    subst heq
    exact (by decide : ('=' : Char) ∉ b32alph) (hmem _ hch)
  have hdata : (encode_public_key sha3_256 pk).data
      = (b32encodeCore (pk ++
          (sha3_256 (onionChecksumPrefix ++ pk ++ [3])).take 2 ++ [3])).map
            Char.toLower ++ ".onion".data := by
    simp only [encode_public_key, base32_encode]
    rw [pyStrip_eq_self _ _ hne]
  have hmaplen : ((b32encodeCore (pk ++
      (sha3_256 (onionChecksumPrefix ++ pk ++ [3])).take 2 ++ [3])).map
        Char.toLower).length = 56 := by
    rw [List.length_map, hlen56]
  have htake : (encode_public_key sha3_256 pk).data.take 56
      = (b32encodeCore (pk ++
          (sha3_256 (onionChecksumPrefix ++ pk ++ [3])).take 2 ++ [3])).map
            Char.toLower := by
    rw [hdata, ← hmaplen, List.take_left]
  refine ⟨?_, ?_, ?_, ?_, rfl⟩
  · rw [hdata, List.length_append, hmaplen]
    decide
  · rw [htake, hmaplen]
  · intro ch hch
    rw [htake] at hch
    obtain ⟨x, hx, rfl⟩ := List.mem_map.mp hch
    exact toLower_mem_lowerB32alph x (hmem x hx)
  · rw [hdata, ← hmaplen, List.drop_left]

/-- Witness for C4 at the all-zero public key with a stub digest. -/
theorem C4_hostname_shape_witness :
    (encode_public_key (fun _ => List.replicate 32 0)
      (List.replicate 32 0)).data.length = 62 :=
  (C4_hostname_shape (fun _ => List.replicate 32 0) (List.replicate 32 0)
    (by simp) (fun _ => by simp)).1

/-! ### The spec's `InvalidKeyLength` contract (C8) -/

/-- C8 counterexample: on a 31-byte input the spec's contract demands an
`InvalidKeyLength` failure (the checked variants return `none`), but the
source functions perform no length check at all and succeed, producing a
64-byte expanded key and a hostname. -/
theorem C8_counterexample_no_failure :
    expandSecretKeyChecked (fun _ => List.replicate 64 0)
      (List.replicate 31 0) = none ∧
    (expand_secret_key (fun _ => List.replicate 64 0)
      (List.replicate 31 0)).length = 64 ∧
    encodeHostnameChecked (fun _ => List.replicate 32 0)
      (List.replicate 31 0) = none ∧
    (encode_public_key (fun _ => List.replicate 32 0)
      (List.replicate 31 0)).data.length = 61 := by
  refine ⟨by decide, by decide, by decide, by decide⟩

/-- C8 amended: the codec performs no length validation — for an input of
any length, `expand_secret_key` succeeds and returns a 64-byte clamped
value (given 64-byte digests) and `encode_public_key` succeeds and returns
a string ending in `".onion"`; in particular every 32-byte input
succeeds. -/
theorem C8_amended_total (sha512 sha3_256 : List Nat → List Nat)
    (s p : List Nat) (h512 : ∀ x, (sha512 x).length = 64) :
    (expand_secret_key sha512 s).length = 64 ∧
    (∃ pre : List Char,
      (encode_public_key sha3_256 p).data = pre ++ ".onion".data) ∧
    expandSecretKeyChecked sha512 (List.replicate 32 0)
      = some (expand_secret_key sha512 (List.replicate 32 0)) := by
  refine ⟨?_, ⟨_, rfl⟩, ?_⟩
  · rw [expand_secret_key_length, h512]
  · simp [expandSecretKeyChecked]

/-- Witness for the amended C8 at the empty input. -/
theorem C8_amended_total_witness :
    (expand_secret_key (fun _ => List.replicate 64 0) []).length = 64 :=
  (C8_amended_total (fun _ => List.replicate 64 0)
    (fun _ => List.replicate 32 0) [] [] (fun _ => by simp)).1

/-! ### Base64 round-trip (C3) -/

/-- The encoder never emits the padding character as a data character. -/
theorem b64chr_ne_pad (i : Nat) : b64chr i ≠ '=' := by
  have hlt : i % 64 < 64 := Nat.mod_lt _ (by norm_num)
  have hall : ∀ j < 64, b64alph.getD j 'A' ≠ '=' := by decide
  exact hall _ hlt

/-- The decode table inverts the encode table on 6-bit values. -/
theorem b64val_b64chr (i : Nat) : b64val (b64chr i) = i % 64 := by
  have hlt : i % 64 < 64 := Nat.mod_lt _ (by norm_num)
  have hall : ∀ j < 64, b64val (b64alph.getD j 'A') = j := by decide
  exact hall _ hlt

/-- Base64 decoding inverts base64 encoding on byte strings. -/
theorem b64_roundtrip (l : List Nat) (h : ∀ b ∈ l, b < 256) :
    b64decodeCore (b64encodeCore l) = l := by
  induction l using b64encodeCore.induct with
  | case1 a b c rest ih =>
      have ha : a < 256 := h a (by simp)
      have hb : b < 256 := h b (by simp)
      have hc : c < 256 := h c (by simp)
      rw [show b64encodeCore (a :: b :: c :: rest)
          = b64chr (a / 4) :: b64chr (a % 4 * 16 + b / 16)
            :: b64chr (b % 16 * 4 + c / 64) :: b64chr (c % 64)
            :: b64encodeCore rest from rfl]
      rw [show ∀ c1 c2 c3 c4 t, b64decodeCore (c1 :: c2 :: c3 :: c4 :: t)
          = if t = [] ∧ c4 = '=' then
              if c3 = '=' then [b64val c1 * 4 + b64val c2 / 16]
              else [b64val c1 * 4 + b64val c2 / 16,
                    b64val c2 % 16 * 16 + b64val c3 / 4]
            else [b64val c1 * 4 + b64val c2 / 16,
                  b64val c2 % 16 * 16 + b64val c3 / 4,
                  b64val c3 % 4 * 64 + b64val c4] ++ b64decodeCore t
          from fun _ _ _ _ _ => rfl]
      rw [if_neg (fun hcon => b64chr_ne_pad _ hcon.2)]
      rw [ih (fun x hx => h x (by simp [hx]))]
      simp only [b64val_b64chr, List.cons_append, List.nil_append,
        List.cons.injEq]
      refine ⟨by omega, by omega, by omega, trivial⟩
  | case2 a b =>
      have ha : a < 256 := h a (by simp)
      have hb : b < 256 := h b (by simp)
      rw [show b64encodeCore [a, b]
          = [b64chr (a / 4), b64chr (a % 4 * 16 + b / 16),
             b64chr (b % 16 * 4), '='] from rfl]
      rw [show b64decodeCore [b64chr (a / 4), b64chr (a % 4 * 16 + b / 16),
            b64chr (b % 16 * 4), '=']
          = if ([] : List Char) = [] ∧ ('=' : Char) = '=' then
              if b64chr (b % 16 * 4) = '=' then
                [b64val (b64chr (a / 4)) * 4
                  + b64val (b64chr (a % 4 * 16 + b / 16)) / 16]
              else [b64val (b64chr (a / 4)) * 4
                      + b64val (b64chr (a % 4 * 16 + b / 16)) / 16,
                    b64val (b64chr (a % 4 * 16 + b / 16)) % 16 * 16
                      + b64val (b64chr (b % 16 * 4)) / 4]
            else [] from rfl]
      rw [if_pos ⟨rfl, rfl⟩, if_neg (b64chr_ne_pad _)]
      simp only [b64val_b64chr, List.cons.injEq]
      refine ⟨by omega, by omega, trivial⟩
  | case3 a =>
      have ha : a < 256 := h a (by simp)
      rw [show b64encodeCore [a]
          = [b64chr (a / 4), b64chr (a % 4 * 16), '=', '='] from rfl]
      rw [show b64decodeCore [b64chr (a / 4), b64chr (a % 4 * 16), '=', '=']
          = if ([] : List Char) = [] ∧ ('=' : Char) = '=' then
              if ('=' : Char) = '=' then
                [b64val (b64chr (a / 4)) * 4
                  + b64val (b64chr (a % 4 * 16)) / 16]
              else []
            else [] from rfl]
      rw [if_pos ⟨rfl, rfl⟩, if_pos rfl]
      simp only [b64val_b64chr, List.cons.injEq]
      refine ⟨by omega, trivial⟩
  | case4 => rfl

/-- Every byte of an expanded secret key is a byte (given that the digest's
bytes are). -/
theorem expand_secret_key_bytes (sha512 : List Nat → List Nat)
    (s : List Nat) (hb : ∀ y ∈ sha512 s, y < 256) :
    ∀ y ∈ expand_secret_key sha512 s, y < 256 := by
  intro y hy
  unfold expand_secret_key at hy
  rcases List.mem_or_eq_of_mem_set hy with hy1 | rfl
  · rcases List.mem_or_eq_of_mem_set hy1 with hy2 | rfl
    · exact hb y hy2
    · exact lt_of_le_of_lt Nat.and_le_right (by norm_num)
  · exact lt_of_lt_of_le (clamp31_lt _) (by norm_num)

/-- C3: base64-decoding a produced public blob and dropping its 32-byte
header recovers exactly the raw public key bytes; decoding the secret blob
and dropping its 32-byte header recovers exactly the 64-byte expanded
secret key; and both fixed headers (`"== ed25519v1-public: type0 =="` /
`"== ed25519v1-secret: type0 =="` plus three NUL bytes) are exactly 32
bytes long. -/
theorem C3_blob_roundtrip (sha512 sha3_256 : List Nat → List Nat)
    (priv pub : List Nat)
    (hb : ∀ y ∈ sha512 priv, y < 256) (hpub : ∀ y ∈ pub, y < 256) :
    (b64decodeCore
      (generate_address sha512 sha3_256 priv pub).publicBlob.data).drop 32
      = pub ∧
    (b64decodeCore
      (generate_address sha512 sha3_256 priv pub).privateBlob.data).drop 32
      = expand_secret_key sha512 priv ∧
    public_header.length = 32 ∧ secret_header.length = 32 := by
  have hph : ∀ y ∈ public_header, y < 256 := by decide
  have hsh : ∀ y ∈ secret_header, y < 256 := by decide
  have hpl : public_header.length = 32 := by decide
  have hsl : secret_header.length = 32 := by decide
  refine ⟨?_, ?_, hpl, hsl⟩
  · show (b64decodeCore (b64encodeCore (public_header ++ pub))).drop 32 = pub
    rw [b64_roundtrip _ (fun y hy => by
      rcases List.mem_append.mp hy with h | h
      · exact hph y h
      · exact hpub y h)]
    rw [← hpl, List.drop_left]
  · show (b64decodeCore (b64encodeCore
      (secret_header ++ expand_secret_key sha512 priv))).drop 32
      = expand_secret_key sha512 priv
    rw [b64_roundtrip _ (fun y hy => by
      rcases List.mem_append.mp hy with h | h
      · exact hsh y h
      · exact expand_secret_key_bytes sha512 priv hb y h)]
    rw [← hsl, List.drop_left]

/-- Witness for C3 at the all-zero key pair with a stub digest. -/
theorem C3_blob_roundtrip_witness :
    (b64decodeCore
      (generate_address (fun _ => List.replicate 64 0)
        (fun _ => List.replicate 32 0) (List.replicate 32 0)
        (List.replicate 32 0)).publicBlob.data).drop 32
      = List.replicate 32 0 :=
  (C3_blob_roundtrip (fun _ => List.replicate 64 0)
    (fun _ => List.replicate 32 0) (List.replicate 32 0)
    (List.replicate 32 0) (by simp) (by simp)).1

end OnionGen
